import Mathlib

/-!
Verification of the tessera scheduling core (task queue, agent pool,
multi-agent executor, quality monitor) against its specification.

The Python sources embedded here are
`src/tessera/workflow/multi_agent_executor.py` and
`src/tessera/workflow/quality_monitor.py`.  The modules
`src/tessera/workflow/task_queue.py` and `src/tessera/workflow/agent_pool.py`
are imported by the executor and exercised by the repository's tests
(`tests/test_task_queue_extended.py`, `tests/test_agent_pool_extended.py`)
but their implementation files are not present in the source tree; their
operations are modelled from the specification, constrained by the
behaviour the in-repository tests pin down.
-/

namespace Tessera

/-- Task status. Modelled from the spec: `task_queue.py` is absent from the
source tree; the spec's status set is {Pending, InProgress, Completed,
Failed}, matching `TaskStatus` as used by the tests and the executor. -/
inductive TaskStatus
  | pending
  | inProgress
  | completed
  | failed
deriving DecidableEq, Repr

/-- A queued task. Modelled from the spec: `task_queue.py` is absent; fields
follow the spec's data model (id, description, ordered dependency ids,
status, assigned worker, result, error) and the attribute names the tests
read (`task_id`, `description`, `status`, `error`, `completed_at`-style
timestamps are wall-clock and are not modelled). -/
structure Task where
  task_id : String
  description : String
  dependencies : List String
  status : TaskStatus
  assigned_agent : Option String
  result : Option String
  error : Option String
deriving DecidableEq, Repr

/-- The dependency-graph task queue. Modelled from the spec: `task_queue.py`
is absent; the Python `dict` of tasks (iterated in insertion order) is
modelled as a list in insertion order with unique ids enforced by
`add_task`. -/
structure TaskQueue where
  tasks : List Task
deriving DecidableEq, Repr

/-- Lookup of a task by id (the tests' `get_task`; `None` when absent). -/
def TaskQueue.get_task (q : TaskQueue) (task_id : String) : Option Task :=
  q.tasks.find? (fun t => t.task_id == task_id)

/-- Modelled from the spec: `add_task(id, description, deps)` registers a
Pending task and fails (DuplicateTask) if the id already exists. -/
def TaskQueue.add_task (q : TaskQueue) (task_id description : String)
    (dependencies : List String) : Option TaskQueue :=
  match q.get_task task_id with
  | some _ => none
  | none =>
      some ⟨q.tasks ++ [⟨task_id, description, dependencies, TaskStatus.pending,
        none, none, none⟩]⟩

/-- A dependency id counts as satisfied iff the queue holds a task with that
id whose status is Completed; ids absent from the queue are never satisfied
(the spec's permanently-blocked case). -/
def TaskQueue.depCompleted (q : TaskQueue) (dep : String) : Bool :=
  match q.get_task dep with
  | some u => u.status == TaskStatus.completed
  | none => false

/-- Modelled from the spec: `get_ready_tasks()` is a pure query returning,
in stable insertion order, every Pending task whose dependencies are all
Completed. -/
def TaskQueue.get_ready_tasks (q : TaskQueue) : List Task :=
  q.tasks.filter
    (fun t => t.status == TaskStatus.pending && t.dependencies.all q.depCompleted)

/-- Replace the task with the given id by `f` applied to it (helper for the
transition methods; `f` only rewrites status/bookkeeping fields). -/
def TaskQueue.updateTask (q : TaskQueue) (task_id : String) (f : Task → Task) :
    TaskQueue :=
  ⟨q.tasks.map (fun t => if t.task_id == task_id then f t else t)⟩

/-- Modelled from the spec: `mark_in_progress(id, worker)` is
Pending→InProgress, recording the worker; fails if the task is absent or not
Pending. -/
def TaskQueue.mark_in_progress (q : TaskQueue) (task_id agent : String) :
    Option TaskQueue :=
  match q.get_task task_id with
  | none => none
  | some t =>
      if t.status == TaskStatus.pending then
        some (q.updateTask task_id (fun u =>
          { u with status := TaskStatus.inProgress, assigned_agent := some agent }))
      else none

/-- Modelled from the spec: `mark_complete(id, result)` moves a task to
Completed, recording the result, and rejects double completion (fails when
the task is absent or already Completed/Failed).  The spec's stricter
InProgress-only precondition contradicts the repository's own tests
(`test_mark_failed`, `test_get_status_summary` complete/fail tasks straight
from Pending), so Pending is also accepted here. -/
def TaskQueue.mark_complete (q : TaskQueue) (task_id : String)
    (result : Option String) : Option TaskQueue :=
  match q.get_task task_id with
  | none => none
  | some t =>
      if t.status == TaskStatus.completed || t.status == TaskStatus.failed then
        none
      else
        some (q.updateTask task_id (fun u =>
          { u with status := TaskStatus.completed, result := result }))

/-- Modelled from the spec: `mark_failed(id, error)` moves a task to Failed,
recording the error; same precondition as `mark_complete` (tests exercise
Pending→Failed directly). -/
def TaskQueue.mark_failed (q : TaskQueue) (task_id error : String) :
    Option TaskQueue :=
  match q.get_task task_id with
  | none => none
  | some t =>
      if t.status == TaskStatus.completed || t.status == TaskStatus.failed then
        none
      else
        some (q.updateTask task_id (fun u =>
          { u with status := TaskStatus.failed, error := some error }))

/-- Modelled from the spec: `is_complete()` is true iff every task is
Completed. -/
def TaskQueue.is_complete (q : TaskQueue) : Bool :=
  q.tasks.all (fun t => t.status == TaskStatus.completed)

/-- Number of tasks currently InProgress (the executor's
`in_progress_count` sum over `task_queue.tasks.values()`). -/
def TaskQueue.in_progress_count (q : TaskQueue) : Nat :=
  (q.tasks.filter (fun t => t.status == TaskStatus.inProgress)).length

/-- The queue's four mutating operations, for stating which status
transitions they can realise. -/
inductive QueueOp
  | add (task_id description : String) (dependencies : List String)
  | inProgress (task_id agent : String)
  | complete (task_id : String) (result : Option String)
  | failed (task_id error : String)
deriving DecidableEq, Repr

/-- Apply one queue operation. -/
def TaskQueue.apply (q : TaskQueue) : QueueOp → Option TaskQueue
  | QueueOp.add id d deps => q.add_task id d deps
  | QueueOp.inProgress id a => q.mark_in_progress id a
  | QueueOp.complete id r => q.mark_complete id r
  | QueueOp.failed id e => q.mark_failed id e

/-- The status transitions a single queue operation can realise on a task
(including leaving it unchanged): Pending→InProgress, Pending→Completed,
Pending→Failed, InProgress→Completed, InProgress→Failed. -/
def legalTransition (s s' : TaskStatus) : Prop :=
  s = s' ∨
    (s = TaskStatus.pending ∧ s' = TaskStatus.inProgress) ∨
    (s = TaskStatus.pending ∧ s' = TaskStatus.completed) ∨
    (s = TaskStatus.pending ∧ s' = TaskStatus.failed) ∨
    (s = TaskStatus.inProgress ∧ s' = TaskStatus.completed) ∨
    (s = TaskStatus.inProgress ∧ s' = TaskStatus.failed)

instance (s s' : TaskStatus) : Decidable (legalTransition s s') := by
  unfold legalTransition; infer_instance

/-! ## AgentPool

`src/tessera/workflow/agent_pool.py` is absent from the source tree; the
pool is modelled from the spec, constrained by the behaviour pinned by
`tests/test_agent_pool_extended.py`. -/

/-- Modelled from the spec: a worker (`AgentInstance`): name, declared
capability tags, current assignment, cumulative completed/failed counters.
The opaque execution handle and model config carry no scheduling behaviour
and are omitted. -/
structure AgentInstance where
  name : String
  capabilities : List String
  current_task : Option String
  tasks_completed : Nat
  tasks_failed : Nat
deriving DecidableEq, Repr

/-- Modelled from the spec: the worker roster, in declaration order. -/
structure AgentPool where
  agents : List AgentInstance
deriving DecidableEq, Repr

/-- Modelled from the spec: a fresh pool from a static roster of
(name, capabilities) declarations. -/
def AgentPool.ofRoster (roster : List (String × List String)) : AgentPool :=
  ⟨roster.map (fun p => ⟨p.1, p.2, none, 0, 0⟩)⟩

/-- Modelled from the spec: `get_available_agents()` returns the workers
with no current assignment. -/
def AgentPool.get_available_agents (p : AgentPool) : List AgentInstance :=
  p.agents.filter (fun a => a.current_task.isNone)

/-- Modelled from the spec: `assign_task_to_agent(task_id, name)` sets the
assignment; fails if the worker is unknown or already assigned. -/
def AgentPool.assign_task_to_agent (p : AgentPool) (task_id agent_name : String) :
    Option AgentPool :=
  match p.agents.find? (fun a => a.name == agent_name) with
  | none => none
  | some a =>
      if a.current_task.isSome then none
      else
        some ⟨p.agents.map (fun b =>
          if b.name == agent_name then { b with current_task := some task_id }
          else b)⟩

/-- Modelled from the spec: `mark_task_complete(name, success)` clears the
assignment and bumps the completed or failed counter.  An unknown worker
name leaves the pool untouched: the executor calls this with the fixed
name "supervisor", and the repository's tests run the executor against
`AgentPool([])` without error. -/
def AgentPool.mark_task_complete (p : AgentPool) (agent_name : String)
    (success : Bool) : AgentPool :=
  ⟨p.agents.map (fun a =>
    if a.name == agent_name then
      { a with current_task := none,
               tasks_completed := if success then a.tasks_completed + 1 else a.tasks_completed,
               tasks_failed := if success then a.tasks_failed else a.tasks_failed + 1 }
    else a)⟩

/-- Number of required capabilities the worker declares. -/
def capabilityOverlap (a : AgentInstance) (required : List String) : Nat :=
  (required.filter (fun c => a.capabilities.contains c)).length

/-- The success ratio completed/(completed+failed+1). -/
def successRatio (a : AgentInstance) : ℚ :=
  (a.tasks_completed : ℚ) /
    ((a.tasks_completed : ℚ) + (a.tasks_failed : ℚ) + 1)

/-- Strict lexicographic order on (capability overlap, success ratio)
scores, as a proposition. -/
def scoreLt (required : List String) (a b : AgentInstance) : Prop :=
  capabilityOverlap a required < capabilityOverlap b required ∨
    (capabilityOverlap a required = capabilityOverlap b required ∧
      successRatio a < successRatio b)

/-- Strict lexicographic comparison of (overlap, ratio) scores. -/
def scoreLtb (required : List String) (a b : AgentInstance) : Bool :=
  decide (capabilityOverlap a required < capabilityOverlap b required) ||
    (capabilityOverlap a required == capabilityOverlap b required &&
      decide (successRatio a < successRatio b))

/-- First maximum of a worker list under the score order (a later worker
replaces the current best only when strictly better, so ties keep the
earlier, i.e. declaration order wins). -/
def bestAgent (required : List String) : List AgentInstance → Option AgentInstance
  | [] => none
  | a :: rest =>
      match bestAgent required rest with
      | none => some a
      | some b => if scoreLtb required a b then some b else some a

/-- Modelled from the spec: `find_best_agent(required_capabilities, phase)`
scores every available worker as (capability-overlap count, success ratio),
returns the lexicographic maximum with ties broken by declaration order,
and returns none ("none found") when no available worker has any
capability overlap.  The `phase` argument does not affect selection. -/
def AgentPool.find_best_agent (p : AgentPool) (required : List String)
    (phase : Option String) : Option String :=
  match bestAgent required p.get_available_agents with
  | none => none
  | some a =>
      if capabilityOverlap a required == 0 then none else some a.name

/-- The two-worker roster of the repository's `test_find_best_agent`. -/
def demoPool : AgentPool :=
  AgentPool.ofRoster
    [("python-expert", ["python", "testing"]), ("docs-writer", ["documentation"])]

/-! ## QualityMonitor (`src/tessera/workflow/quality_monitor.py`)

Coverage and quality scalars are Python floats in the source; they are
modelled as rationals (no float-specific behaviour is at play in the
monitor's comparisons).  The `output_hashes` dict is modelled by its lookup
function `String → List String`, and the SHA-256 hexdigest is abstracted as
a hash-function parameter `H`. -/

/-- One entry of `iteration_history` (the dict appended by
`record_iteration`). -/
structure IterationRecord where
  iteration : Nat
  coverage : Option ℚ
  quality_score : Option ℚ
  tasks_completed : Nat
deriving DecidableEq, Repr

/-- State of `QualityMonitor`: thresholds from `__init__` plus the three
tracking fields. -/
structure QualityMonitor where
  min_coverage_improvement : ℚ
  max_iterations_without_improvement : Nat
  similarity_threshold : ℚ
  iteration_history : List IterationRecord
  output_hashes : String → List String
  coverage_history : List ℚ

/-- Constructor `QualityMonitor.__init__`: given thresholds, empty tracking state. -/
def QualityMonitor.init (min_coverage_improvement : ℚ)
    (max_iterations_without_improvement : Nat) (similarity_threshold : ℚ) :
    QualityMonitor :=
  ⟨min_coverage_improvement, max_iterations_without_improvement,
    similarity_threshold, [], fun _ => [], []⟩

/-- A monitor constructed with the constructor's default arguments
(0.05, 3, 0.95). -/
def defaultMonitor : QualityMonitor :=
  QualityMonitor.init (5 / 100) 3 (95 / 100)

/-- Method `record_iteration`: append the record; append to `coverage_history`
only when a coverage value was supplied. -/
def QualityMonitor.record_iteration (m : QualityMonitor) (iteration : Nat)
    (coverage quality_score : Option ℚ) (tasks_completed : Nat) :
    QualityMonitor :=
  let m1 := { m with iteration_history :=
    m.iteration_history ++ [⟨iteration, coverage, quality_score, tasks_completed⟩] }
  match coverage with
  | some c => { m1 with coverage_history := m1.coverage_history ++ [c] }
  | none => m1

/-- Method `check_output_similarity(task_id, output)`: 1.0 when the hash of
`output` was already recorded for `task_id`, else 0.0 after recording the
hash.  Returns the similarity together with the updated monitor (the
Python method mutates `self.output_hashes`). -/
def QualityMonitor.check_output_similarity (H : String → String)
    (m : QualityMonitor) (task_id output : String) : ℚ × QualityMonitor :=
  let output_hash := H output
  let previous_hashes := m.output_hashes task_id
  if previous_hashes.contains output_hash then (1, m)
  else
    (0, { m with output_hashes := fun tid =>
      if tid == task_id then m.output_hashes tid ++ [output_hash]
      else m.output_hashes tid })

/-- Method `detect_loop(task_id, output)`: similarity ≥ `similarity_threshold`. -/
def QualityMonitor.detect_loop (H : String → String) (m : QualityMonitor)
    (task_id output : String) : Bool × QualityMonitor :=
  let sim := m.check_output_similarity H task_id output
  (decide (m.similarity_threshold ≤ sim.1), sim.2)

/-- Python's slice `xs[-n:]` on the coverage history (for `n = 0` the
slice is the whole list). -/
def sliceLast (n : Nat) (l : List ℚ) : List ℚ :=
  if n = 0 then l else l.drop (l.length - n)

/-- The comprehension
`[recent[i+1] - recent[i] for i in range(len(recent)-1)]`. -/
def adjacentDiffs : List ℚ → List ℚ
  | a :: b :: rest => (b - a) :: adjacentDiffs (b :: rest)
  | _ => []

/-- Method `should_continue(iteration)`: insufficient data before 2 records; the
stagnation check runs only once `coverage_history` has at least
`max_iterations_without_improvement` samples. -/
def QualityMonitor.should_continue (m : QualityMonitor) (iteration : Nat) :
    Bool × String :=
  if m.iteration_history.length < 2 then (true, "insufficient_data")
  else if m.max_iterations_without_improvement ≤ m.coverage_history.length then
    let recent_coverage :=
      sliceLast m.max_iterations_without_improvement m.coverage_history
    let improvements := adjacentDiffs recent_coverage
    if improvements.all (fun imp => decide (imp < m.min_coverage_improvement)) then
      (false, "No coverage improvement in " ++
        toString m.max_iterations_without_improvement ++ " iterations")
    else (true, "quality_improving")
  else (true, "quality_improving")

/-- Replay a sequence of `(task_id, output)` submissions through
`check_output_similarity`, threading the monitor state (this is also the
state evolution performed by successive `detect_loop` calls). -/
def runSubmissions (H : String → String) (m : QualityMonitor) :
    List (String × String) → QualityMonitor
  | [] => m
  | (t, o) :: rest => runSubmissions H (m.check_output_similarity H t o).2 rest

/-- The coverage-history scenario of the spec: defaults, four recorded
iterations with coverages 70.0, 70.01, 70.02, 70.03. -/
def scenarioMonitor : QualityMonitor :=
  ((((defaultMonitor.record_iteration 1 (some 70) none 0).record_iteration 2
      (some (7001 / 100)) none 0).record_iteration 3
      (some (7002 / 100)) none 0).record_iteration 4
      (some (7003 / 100)) none 0)

/-- A monitor with two recorded iterations and no coverage samples. -/
def noCoverageMonitor : QualityMonitor :=
  (defaultMonitor.record_iteration 1 none none 0).record_iteration 2 none none 1

/-! ## MultiAgentExecutor (`src/tessera/workflow/multi_agent_executor.py`)

The supervisor's `decompose_task` — an opaque, possibly raising
capability — is modelled as a function into `Except` (an `Except.error`
models a raised exception, carrying the Python `str(e)`); measured
wall-clock durations are threaded in as given values; calls into the
metrics store and the agent pool are recorded as an event trace. -/

/-- One observable call of the executor into its collaborators. -/
inductive ExecEvent
  | record_agent_performance (agent_name task_id : String) (success : Bool)
  | pool_mark_task_complete (agent_name : String) (success : Bool)
  | pool_assign_task (task_id agent_name : String)
deriving DecidableEq, Repr

/-- The result dict of `execute_task_async`. -/
structure TaskResult where
  success : Bool
  result : Option String
  error : Option String
  duration : ℚ
deriving DecidableEq, Repr

/-- Method `execute_task_async(task_id, description, agent_name)`: run the
supervisor capability on the description; on either outcome record the
agent performance metric, notify the pool via `mark_task_complete`, and
return the result dict (the `except` branch returns `success: False` with
the exception string instead of propagating). -/
def execute_task_async (supervisor : String → Except String String)
    (pool : AgentPool) (task_id description agent_name : String)
    (duration : ℚ) : TaskResult × AgentPool × List ExecEvent :=
  match supervisor description with
  | Except.ok result =>
      (⟨true, some result, none, duration⟩,
        pool.mark_task_complete agent_name true,
        [ExecEvent.record_agent_performance agent_name task_id true,
          ExecEvent.pool_mark_task_complete agent_name true])
  | Except.error e =>
      (⟨false, none, some e, duration⟩,
        pool.mark_task_complete agent_name false,
        [ExecEvent.record_agent_performance agent_name task_id false,
          ExecEvent.pool_mark_task_complete agent_name false])

/-- The body of `execute_with_semaphore(task)` inside
`execute_tasks_parallel`: mark the task in progress under the fixed agent
name "supervisor" (the v1.0 source uses the supervisor for all tasks),
execute it, then mark the queue entry complete or failed from the result.
`none` models the case where a queue transition method raises (unreached
when the task came from the ready list). -/
def execute_with_semaphore (supervisor : String → Except String String)
    (q : TaskQueue) (pool : AgentPool) (task : Task) (duration : ℚ) :
    Option (TaskResult × TaskQueue × AgentPool × List ExecEvent) :=
  let agent_name := "supervisor"
  match q.mark_in_progress task.task_id agent_name with
  | none => none
  | some q1 =>
      match execute_task_async supervisor pool task.task_id task.description
          agent_name duration with
      | (result, pool1, events) =>
          if result.success then
            match q1.mark_complete task.task_id result.result with
            | none => none
            | some q2 => some (result, q2, pool1, events)
          else
            match q1.mark_failed task.task_id (result.error.getD "") with
            | none => none
            | some q2 => some (result, q2, pool1, events)

/-- The batch selection `tasks_to_execute = ready_tasks[: self.max_parallel]`
of `execute_project`. -/
def tasks_to_execute (ready_tasks : List Task) (max_parallel : Nat) :
    List Task :=
  ready_tasks.take max_parallel

/-- The counting semaphore `asyncio.Semaphore(max_concurrent)` of
`execute_tasks_parallel`, as a transition system over the number of
current holders (in-flight `execute_task_async` invocations): an acquire
can fire only below capacity, a release only above zero. -/
inductive SemReachable (max_concurrent : Nat) : Nat → Prop
  | init : SemReachable max_concurrent 0
  | acquire (n : Nat) : SemReachable max_concurrent n →
      n < max_concurrent → SemReachable max_concurrent (n + 1)
  | release (n : Nat) : SemReachable max_concurrent n →
      0 < n → SemReachable max_concurrent (n - 1)

/-- The iteration loop of `execute_project` (step 3 of the source), with
the batch execution `asyncio.run(self.execute_tasks_parallel(...))`
abstracted as a queue transformer `runBatch` and the 0.1-second idle sleep
dropped.  The first argument of the recursion is the remaining budget
`max_iterations - iteration`; the returned number is the final value of
the `iteration` counter. -/
def execute_loop (runBatch : TaskQueue → List Task → TaskQueue)
    (max_parallel : Nat) : Nat → TaskQueue → Nat → TaskQueue × Nat
  | 0, q, iteration => (q, iteration)
  | fuel + 1, q, iteration =>
      if q.is_complete then (q, iteration)
      else
        let ready_tasks := q.get_ready_tasks
        if ready_tasks.isEmpty then
          if q.in_progress_count == 0 && !q.is_complete then (q, iteration + 1)
          else execute_loop runBatch max_parallel fuel q (iteration + 1)
        else
          execute_loop runBatch max_parallel fuel
            (runBatch q (tasks_to_execute ready_tasks max_parallel))
            (iteration + 1)

/-- The summary dict returned by `execute_project` (the wall-clock
`duration_seconds` is not modelled). -/
structure ProjectSummary where
  objective : String
  tasks_total : Nat
  tasks_completed : Nat
  tasks_failed : Nat
  iterations : Nat
  status : String
deriving DecidableEq, Repr

/-- Method `execute_project(objective)` from the point where decomposition has
already registered the subtasks into `q0`: run the iteration loop, then
assemble the summary. -/
def execute_project (runBatch : TaskQueue → List Task → TaskQueue)
    (max_parallel max_iterations : Nat) (objective : String)
    (q0 : TaskQueue) : ProjectSummary :=
  let p := execute_loop runBatch max_parallel max_iterations q0 0
  let completed_count :=
    (p.1.tasks.filter (fun t => t.status == TaskStatus.completed)).length
  let failed_count :=
    (p.1.tasks.filter (fun t => t.status == TaskStatus.failed)).length
  ⟨objective, p.1.tasks.length, completed_count, failed_count, p.2,
    if p.1.is_complete then "completed" else "incomplete"⟩

/-- The deadlocked queue of the spec's Scenario E: a task depending on a
nonexistent id. -/
def blockedQueue : TaskQueue :=
  ⟨[⟨"t1", "d", ["missing"], TaskStatus.pending, none, none, none⟩]⟩

/-- A one-task queue with a Pending task (for concrete dispatch runs). -/
def demoTask : Task := ⟨"t1", "d", [], TaskStatus.pending, none, none, none⟩

/-- The queue holding just `demoTask`. -/
def demoQueue : TaskQueue := ⟨[demoTask]⟩

/-- A one-worker roster whose only worker is named "w1". -/
def demoRoster : AgentPool := AgentPool.ofRoster [("w1", ["python"])]

/-- The value `execute_with_semaphore` produces on `demoQueue`,
`demoRoster` and a succeeding supervisor. -/
def demoOutcome : TaskResult × TaskQueue × AgentPool × List ExecEvent :=
  (⟨true, some "out", none, 0⟩,
    ⟨[⟨"t1", "d", [], TaskStatus.completed, some "supervisor", some "out", none⟩]⟩,
    AgentPool.ofRoster [("w1", ["python"])],
    [ExecEvent.record_agent_performance "supervisor" "t1" true,
      ExecEvent.pool_mark_task_complete "supervisor" true])

/-! ### Supporting lemmas -/

theorem get_task_some_id (q : TaskQueue) (id : String) (t : Task)
    (h : q.get_task id = some t) : t.task_id = id := by
  unfold TaskQueue.get_task at h
  simpa using List.find?_some h

theorem get_task_updateTask (q : TaskQueue) (id : String) (f : Task → Task)
    (hf : ∀ t, (f t).task_id = t.task_id) (id' : String) :
    (q.updateTask id f).get_task id' =
      (q.get_task id').map (fun t => if t.task_id == id then f t else t) := by
  unfold TaskQueue.updateTask TaskQueue.get_task
  rw [List.find?_map]
  have hc : ((fun t => t.task_id == id') ∘
      fun t => if t.task_id == id then f t else t) = fun t => t.task_id == id' := by
    funext t
    by_cases h2 : t.task_id = id <;> simp [h2, hf]
  rw [hc]

theorem depCompleted_iff (q : TaskQueue) (d : String) :
    q.depCompleted d = true ↔
      ∃ u, q.get_task d = some u ∧ u.status = TaskStatus.completed := by
  unfold TaskQueue.depCompleted
  cases h : q.get_task d <;> simp [h]

theorem get_task_after_update (q : TaskQueue) (id0 : String) (f : Task → Task)
    (hf : ∀ t, (f t).task_id = t.task_id) (id : String) (t t' : Task)
    (ht : q.get_task id = some t)
    (ht' : (q.updateTask id0 f).get_task id = some t') :
    t' = t ∨ (t' = f t ∧ t.task_id = id0) := by
  rw [get_task_updateTask q id0 f hf id, ht] at ht'
  simp only [Option.map_some'] at ht'
  injection ht' with ht'
  by_cases hid : t.task_id == id0
  · right
    rw [if_pos hid] at ht'
    exact ⟨ht'.symm, by simpa using hid⟩
  · left
    rw [if_neg hid] at ht'
    exact ht'.symm

theorem scoreLtb_iff (required : List String) (a b : AgentInstance) :
    scoreLtb required a b = true ↔ scoreLt required a b := by
  unfold scoreLtb scoreLt
  simp [Bool.or_eq_true, Bool.and_eq_true]

theorem not_scoreLt_iff (required : List String) (a b : AgentInstance) :
    ¬ scoreLt required a b ↔
      (capabilityOverlap b required < capabilityOverlap a required ∨
        (capabilityOverlap a required = capabilityOverlap b required ∧
          successRatio b ≤ successRatio a)) := by
  unfold scoreLt
  constructor
  · intro h
    rcases Nat.lt_trichotomy (capabilityOverlap a required)
        (capabilityOverlap b required) with h1 | h1 | h1
    · exact absurd (Or.inl h1) h
    · exact Or.inr ⟨h1, le_of_not_lt (fun hr => h (Or.inr ⟨h1, hr⟩))⟩
    · exact Or.inl h1
  · rintro (h1 | ⟨h1, h2⟩) (g1 | ⟨g1, g2⟩)
    · omega
    · omega
    · omega
    · linarith

theorem scoreLt_asymm (required : List String) (a b : AgentInstance)
    (h : scoreLt required a b) : ¬ scoreLt required b a := by
  rcases h with h1 | ⟨h1, h2⟩ <;> rintro (g1 | ⟨g1, g2⟩) <;>
    first | omega | linarith

theorem scoreLt_of_lt_of_nlt (required : List String) (y b x : AgentInstance)
    (h : scoreLt required y b) (hn : ¬ scoreLt required x b) :
    scoreLt required y x := by
  rw [not_scoreLt_iff] at hn
  unfold scoreLt at h ⊢
  rcases h with h1 | ⟨h1, h2⟩ <;> rcases hn with g1 | ⟨g1, g2⟩
  · exact Or.inl (by omega)
  · exact Or.inl (by omega)
  · exact Or.inl (by omega)
  · exact Or.inr ⟨by omega, by linarith⟩

theorem not_scoreLt_trans (required : List String) (x b y : AgentInstance)
    (hxb : ¬ scoreLt required x b) (hby : ¬ scoreLt required b y) :
    ¬ scoreLt required x y := by
  rw [not_scoreLt_iff] at hxb hby ⊢
  rcases hxb with h1 | ⟨h1, h2⟩ <;> rcases hby with g1 | ⟨g1, g2⟩
  · exact Or.inl (by omega)
  · exact Or.inl (by omega)
  · exact Or.inl (by omega)
  · exact Or.inr ⟨by omega, by linarith⟩

theorem bestAgent_eq_none (required : List String) :
    ∀ l : List AgentInstance, bestAgent required l = none ↔ l = []
  | [] => by simp [bestAgent]
  | a :: rest => by
      rw [bestAgent]
      cases bestAgent required rest
      · simp
      · rename_i b
        by_cases hb : scoreLtb required a b <;> simp [hb]

theorem bestAgent_split (required : List String) (l : List AgentInstance)
    (a : AgentInstance) (h : bestAgent required l = some a) :
    ∃ l1 l2, l = l1 ++ a :: l2 ∧
      (∀ b ∈ l1, scoreLt required b a) ∧
      (∀ b ∈ l2, ¬ scoreLt required a b) := by
  induction l generalizing a with
  | nil => simp [bestAgent] at h
  | cons x rest ih =>
      rw [bestAgent] at h
      cases hr : bestAgent required rest with
      | none =>
          simp only [hr] at h
          injection h with h
          subst h
          have hrest : rest = [] := (bestAgent_eq_none required rest).mp hr
          subst hrest
          exact ⟨[], [], rfl, by simp, by simp⟩
      | some b =>
          simp only [hr] at h
          by_cases hxb : scoreLtb required x b = true
          · rw [if_pos hxb] at h
            injection h with h
            subst h
            rcases ih b hr with ⟨r1, r2, hsplit, h1, h2⟩
            refine ⟨x :: r1, r2, by rw [hsplit]; rfl, ?_, h2⟩
            intro c hc
            rcases List.mem_cons.mp hc with rfl | hc
            · exact (scoreLtb_iff required c b).mp hxb
            · exact h1 c hc
          · rw [if_neg hxb] at h
            injection h with h
            subst h
            have hnab : ¬ scoreLt required x b :=
              fun hh => hxb ((scoreLtb_iff required x b).mpr hh)
            rcases ih b hr with ⟨r1, r2, hsplit, h1, h2⟩
            refine ⟨[], rest, rfl, by simp, ?_⟩
            intro c hc
            rw [hsplit] at hc
            rcases List.mem_append.mp hc with hc1 | hc2
            · exact scoreLt_asymm required c x
                (scoreLt_of_lt_of_nlt required c b x (h1 c hc1) hnab)
            · rcases List.mem_cons.mp hc2 with rfl | hc2
              · exact hnab
              · exact not_scoreLt_trans required x b c hnab (h2 c hc2)

theorem mark_in_progress_spec (q : TaskQueue) (id ag : String) (q' : TaskQueue)
    (h : q.mark_in_progress id ag = some q') :
    ∃ t, q.get_task id = some t ∧ t.status = TaskStatus.pending ∧
      q'.get_task id = some { t with status := TaskStatus.inProgress,
                                     assigned_agent := some ag } := by
  unfold TaskQueue.mark_in_progress at h
  split at h
  · cases h
  · rename_i t h0
    split at h
    · rename_i hs
      injection h with h
      subst h
      refine ⟨t, h0, by simpa using hs, ?_⟩
      rw [get_task_updateTask q id (fun u => { u with status := TaskStatus.inProgress, assigned_agent := some ag }) (fun _ => rfl) id, h0]
      simp [get_task_some_id q id t h0]
    · cases h

theorem mark_complete_spec (q : TaskQueue) (id : String) (r : Option String)
    (q' : TaskQueue) (h : q.mark_complete id r = some q') :
    ∃ t, q.get_task id = some t ∧
      q'.get_task id = some { t with status := TaskStatus.completed,
                                     result := r } := by
  unfold TaskQueue.mark_complete at h
  split at h
  · cases h
  · rename_i t h0
    split at h
    · cases h
    · injection h with h
      subst h
      refine ⟨t, h0, ?_⟩
      rw [get_task_updateTask q id (fun u => { u with status := TaskStatus.completed, result := r }) (fun _ => rfl) id, h0]
      simp [get_task_some_id q id t h0]

theorem mark_failed_spec (q : TaskQueue) (id e : String) (q' : TaskQueue)
    (h : q.mark_failed id e = some q') :
    ∃ t, q.get_task id = some t ∧
      q'.get_task id = some { t with status := TaskStatus.failed,
                                     error := some e } := by
  unfold TaskQueue.mark_failed at h
  split at h
  · cases h
  · rename_i t h0
    split at h
    · cases h
    · injection h with h
      subst h
      refine ⟨t, h0, ?_⟩
      rw [get_task_updateTask q id (fun u => { u with status := TaskStatus.failed, error := some e }) (fun _ => rfl) id, h0]
      simp [get_task_some_id q id t h0]

theorem find_best_agent_on_none (p : AgentPool) (required : List String)
    (phase : Option String)
    (h : bestAgent required p.get_available_agents = none) :
    p.find_best_agent required phase = none := by
  unfold AgentPool.find_best_agent
  rw [h]

theorem find_best_agent_on_some (p : AgentPool) (required : List String)
    (phase : Option String) (a : AgentInstance)
    (h : bestAgent required p.get_available_agents = some a) :
    p.find_best_agent required phase =
      if capabilityOverlap a required == 0 then none else some a.name := by
  unfold AgentPool.find_best_agent
  rw [h]

theorem check_sim_threshold (H : String → String) (m : QualityMonitor)
    (t o : String) :
    (m.check_output_similarity H t o).2.similarity_threshold =
      m.similarity_threshold := by
  simp only [QualityMonitor.check_output_similarity]
  split <;> rfl

theorem runSubmissions_threshold (H : String → String)
    (subs : List (String × String)) :
    ∀ m : QualityMonitor,
      (runSubmissions H m subs).similarity_threshold = m.similarity_threshold := by
  induction subs with
  | nil => intro m; rfl
  | cons p rest ih =>
      intro m
      rcases p with ⟨t, o⟩
      rw [runSubmissions, ih, check_sim_threshold]

theorem check_sim_fst (H : String → String) (m : QualityMonitor) (t o : String) :
    (m.check_output_similarity H t o).1 =
      if H o ∈ m.output_hashes t then (1 : ℚ) else 0 := by
  simp only [QualityMonitor.check_output_similarity]
  by_cases hc : H o ∈ m.output_hashes t <;> simp [hc]

theorem step_hashes (H : String → String) (m : QualityMonitor)
    (t o tid h' : String) :
    h' ∈ (m.check_output_similarity H t o).2.output_hashes tid ↔
      h' ∈ m.output_hashes tid ∨ (tid = t ∧ h' = H o) := by
  simp only [QualityMonitor.check_output_similarity]
  by_cases hc : H o ∈ m.output_hashes t
  · rw [if_pos (by simp [List.contains, hc])]
    constructor
    · exact Or.inl
    · rintro (hm | ⟨rfl, rfl⟩)
      · exact hm
      · exact hc
  · rw [if_neg (by simp [List.contains, hc])]
    by_cases htid : tid = t <;> simp [htid]

theorem runSubmissions_hashes (H : String → String)
    (subs : List (String × String)) :
    ∀ (m : QualityMonitor) (pre : List (String × String)),
      (∀ tid h', h' ∈ m.output_hashes tid ↔ ∃ o, (tid, o) ∈ pre ∧ H o = h') →
      ∀ tid h', h' ∈ (runSubmissions H m subs).output_hashes tid ↔
        ∃ o, (tid, o) ∈ pre ++ subs ∧ H o = h' := by
  induction subs with
  | nil =>
      intro m pre hm tid h'
      simpa using hm tid h'
  | cons p rest ih =>
      intro m pre hm tid h'
      rcases p with ⟨t, o⟩
      have hstep : ∀ tid h',
          h' ∈ (m.check_output_similarity H t o).2.output_hashes tid ↔
            ∃ o', (tid, o') ∈ pre ++ [(t, o)] ∧ H o' = h' := by
        intro tid2 h2
        rw [step_hashes, hm]
        constructor
        · rintro (⟨o', ho', rfl⟩ | ⟨rfl, rfl⟩)
          · exact ⟨o', by simp [ho'], rfl⟩
          · exact ⟨o, by simp, rfl⟩
        · rintro ⟨o', ho', rfl⟩
          simp only [List.mem_append, List.mem_singleton, Prod.mk.injEq] at ho'
          rcases ho' with h1 | ⟨rfl, rfl⟩
          · exact Or.inl ⟨o', h1, rfl⟩
          · exact Or.inr ⟨rfl, rfl⟩
      have := ih (m.check_output_similarity H t o).2 (pre ++ [(t, o)]) hstep tid h'
      rw [runSubmissions]
      simpa [List.append_assoc] using this

theorem runSubmissions_hashes_init (H : String → String)
    (subs : List (String × String)) (tid h' : String) :
    h' ∈ (runSubmissions H defaultMonitor subs).output_hashes tid ↔
      ∃ o, (tid, o) ∈ subs ∧ H o = h' := by
  have h0 : ∀ tid h', h' ∈ defaultMonitor.output_hashes tid ↔
      ∃ o, (tid, o) ∈ ([] : List (String × String)) ∧ H o = h' := by
    intro tid2 h2
    simp [defaultMonitor, QualityMonitor.init]
  simpa using runSubmissions_hashes H subs defaultMonitor [] h0 tid h'

theorem adjacentDiffs_all_iff (c : ℚ) :
    ∀ l : List ℚ,
      ((adjacentDiffs l).all (fun d => decide (d < c)) = true ↔
        List.Chain' (fun a b => b - a < c) l)
  | [] => by simp [adjacentDiffs]
  | [a] => by simp [adjacentDiffs]
  | a :: b :: rest => by
      rw [adjacentDiffs]
      simp only [List.all_cons, Bool.and_eq_true, decide_eq_true_eq,
        List.chain'_cons, adjacentDiffs_all_iff c (b :: rest)]

/-! ### Claims -/

/-- C1: `get_ready_tasks()` returns a task `t` iff `t` is in the queue with
status Pending and every declared dependency of `t` resolves to a Completed
task; the returned list is a sublist of the queue's insertion-ordered task
list (stable insertion order).  In particular `t` is never returned while
some dependency is not Completed. -/
theorem C1_get_ready_tasks_correct (q : TaskQueue) (t : Task) :
    (t ∈ q.get_ready_tasks ↔
      t ∈ q.tasks ∧ t.status = TaskStatus.pending ∧
        ∀ d ∈ t.dependencies,
          ∃ u, q.get_task d = some u ∧ u.status = TaskStatus.completed)
    ∧ q.get_ready_tasks.Sublist q.tasks := by
  constructor
  · simp [TaskQueue.get_ready_tasks, List.mem_filter, List.all_eq_true,
      depCompleted_iff, and_assoc]
  · exact List.filter_sublist q.tasks

/-- C2 counterexample: the claim "`mark_failed` fails whenever the named
task's status is not InProgress" is false on this code base: in the
scenario of the repository's own test `test_mark_failed`, a freshly added
Pending task is marked failed and the call succeeds. -/
theorem C2_claim_counterexample :
    ¬ ∀ (q : TaskQueue) (id err : String) (t : Task),
        q.get_task id = some t → t.status ≠ TaskStatus.inProgress →
          q.mark_failed id err = none := by
  intro h
  have h1 := h ⟨[⟨"task1", "Test task", [], TaskStatus.pending, none, none, none⟩]⟩
    "task1" "Error message"
    ⟨"task1", "Test task", [], TaskStatus.pending, none, none, none⟩
    (by decide) (by decide)
  exact absurd h1 (by decide)

/-- C2 (amended): `mark_complete` and `mark_failed` fail exactly when the
named task is absent or already Completed/Failed (so there is no double
completion), but they do succeed on Pending tasks as the repository's
tests require; accordingly the only status transitions any queue operation
realises are Pending→InProgress, Pending→Completed, Pending→Failed,
InProgress→Completed and InProgress→Failed (or no change). -/
theorem C2_transitions (q : TaskQueue) :
    (∀ (op : QueueOp) (q' : TaskQueue) (id : String) (t t' : Task),
        q.apply op = some q' → q.get_task id = some t →
          q'.get_task id = some t' → legalTransition t.status t'.status)
    ∧ (∀ (id : String) (r : Option String),
        q.mark_complete id r = none ↔
          q.get_task id = none ∨
            ∃ t, q.get_task id = some t ∧
              (t.status = TaskStatus.completed ∨ t.status = TaskStatus.failed))
    ∧ (∀ (id e : String),
        q.mark_failed id e = none ↔
          q.get_task id = none ∨
            ∃ t, q.get_task id = some t ∧
              (t.status = TaskStatus.completed ∨ t.status = TaskStatus.failed)) := by
  refine ⟨?_, ?_, ?_⟩
  · intro op q' id t t' happ ht ht'
    cases op with
    | add id0 d deps =>
        simp only [TaskQueue.apply] at happ
        unfold TaskQueue.add_task at happ
        split at happ
        · exact absurd happ (by simp)
        · injection happ with happ
          subst happ
          unfold TaskQueue.get_task at ht ht'
          simp only [List.find?_append, ht, Option.or_some] at ht'
          injection ht' with ht'
          subst ht'
          exact Or.inl rfl
    | inProgress id0 a =>
        simp only [TaskQueue.apply] at happ
        unfold TaskQueue.mark_in_progress at happ
        split at happ
        · exact absurd happ (by simp)
        · rename_i u h0
          split at happ
          · rename_i hs
            injection happ with happ
            subst happ
            have gtu := get_task_after_update q id0 (fun u => { u with status := TaskStatus.inProgress, assigned_agent := some a }) (fun _ => rfl) id t t' ht ht'
            rcases gtu with heq | ⟨heq, hid⟩
            · rw [heq]; exact Or.inl rfl
            · have hidt : t.task_id = id := get_task_some_id q id t ht
              rw [hidt] at hid
              subst hid
              have hut : t = u := Option.some.inj (ht.symm.trans h0)
              have hp : t.status = TaskStatus.pending := by
                rw [hut]; simpa using hs
              rw [heq]
              exact Or.inr (Or.inl ⟨hp, rfl⟩)
          · exact absurd happ (by simp)
    | complete id0 r =>
        simp only [TaskQueue.apply] at happ
        unfold TaskQueue.mark_complete at happ
        split at happ
        · exact absurd happ (by simp)
        · rename_i u h0
          split at happ
          · exact absurd happ (by simp)
          · rename_i hs
            injection happ with happ
            subst happ
            have gtu := get_task_after_update q id0 (fun u => { u with status := TaskStatus.completed, result := r }) (fun _ => rfl) id t t' ht ht'
            rcases gtu with heq | ⟨heq, hid⟩
            · rw [heq]; exact Or.inl rfl
            · have hidt : t.task_id = id := get_task_some_id q id t ht
              rw [hidt] at hid
              subst hid
              have hut : t = u := Option.some.inj (ht.symm.trans h0)
              simp only [Bool.or_eq_true, beq_iff_eq, not_or] at hs
              rw [heq]
              cases hstat : t.status with
              | pending => exact Or.inr (Or.inr (Or.inl ⟨rfl, rfl⟩))
              | inProgress => exact Or.inr (Or.inr (Or.inr (Or.inr (Or.inl ⟨rfl, rfl⟩))))
              | completed => exact absurd (hut ▸ hstat) hs.1
              | failed => exact absurd (hut ▸ hstat) hs.2
    | failed id0 e =>
        simp only [TaskQueue.apply] at happ
        unfold TaskQueue.mark_failed at happ
        split at happ
        · exact absurd happ (by simp)
        · rename_i u h0
          split at happ
          · exact absurd happ (by simp)
          · rename_i hs
            injection happ with happ
            subst happ
            have gtu := get_task_after_update q id0 (fun u => { u with status := TaskStatus.failed, error := some e }) (fun _ => rfl) id t t' ht ht'
            rcases gtu with heq | ⟨heq, hid⟩
            · rw [heq]; exact Or.inl rfl
            · have hidt : t.task_id = id := get_task_some_id q id t ht
              rw [hidt] at hid
              subst hid
              have hut : t = u := Option.some.inj (ht.symm.trans h0)
              simp only [Bool.or_eq_true, beq_iff_eq, not_or] at hs
              rw [heq]
              cases hstat : t.status with
              | pending => exact Or.inr (Or.inr (Or.inr (Or.inl ⟨rfl, rfl⟩)))
              | inProgress =>
                  exact Or.inr (Or.inr (Or.inr (Or.inr (Or.inr ⟨rfl, rfl⟩))))
              | completed => exact absurd (hut ▸ hstat) hs.1
              | failed => exact absurd (hut ▸ hstat) hs.2
  · intro id r
    unfold TaskQueue.mark_complete
    cases h0 : q.get_task id with
    | none => simp [h0]
    | some t => cases hstat : t.status <;> simp [h0, hstat]
  · intro id e
    unfold TaskQueue.mark_failed
    cases h0 : q.get_task id with
    | none => simp [h0]
    | some t => cases hstat : t.status <;> simp [h0, hstat]

/-- C5: `should_continue` returns (true, "insufficient_data") before 2
recorded iterations; once 2 records exist it returns false exactly when the
coverage history holds at least `max_iterations_without_improvement`
samples and every consecutive delta over those last samples is below
`min_coverage_improvement` (the hypothesis `1 ≤ max_iterations_without_improvement`
reflects the claim's presupposition that "the last N samples" names a
nonempty suffix; the constructor default is 3); and on the spec's scenario
(coverages 70.0, 70.01, 70.02, 70.03 with thresholds 0.05 and 3) it
returns false with the reason "No coverage improvement in 3 iterations". -/
theorem C5_should_continue (m : QualityMonitor) (iteration : Nat)
    (hN : 1 ≤ m.max_iterations_without_improvement) :
    (m.iteration_history.length < 2 →
        m.should_continue iteration = (true, "insufficient_data"))
    ∧ (2 ≤ m.iteration_history.length →
        ((m.should_continue iteration).1 = false ↔
          m.max_iterations_without_improvement ≤ m.coverage_history.length ∧
            List.Chain' (fun a b => b - a < m.min_coverage_improvement)
              (m.coverage_history.drop
                (m.coverage_history.length - m.max_iterations_without_improvement))))
    ∧ scenarioMonitor.should_continue 5 =
        (false, "No coverage improvement in 3 iterations") := by
  refine ⟨?_, ?_, ?_⟩
  · intro h
    simp only [QualityMonitor.should_continue]
    rw [if_pos h]
  · intro h2
    simp only [QualityMonitor.should_continue]
    rw [if_neg (not_lt.mpr h2)]
    by_cases hlen :
        m.max_iterations_without_improvement ≤ m.coverage_history.length
    · rw [if_pos hlen]
      have hslice : sliceLast m.max_iterations_without_improvement
          m.coverage_history =
          m.coverage_history.drop
            (m.coverage_history.length - m.max_iterations_without_improvement) := by
        unfold sliceLast
        rw [if_neg (by omega)]
      rw [hslice]
      by_cases hall : ((adjacentDiffs
          (m.coverage_history.drop
            (m.coverage_history.length - m.max_iterations_without_improvement))).all
          (fun imp => decide (imp < m.min_coverage_improvement))) = true
      · rw [if_pos hall]
        exact ⟨fun _ => ⟨hlen, (adjacentDiffs_all_iff _ _).mp hall⟩, fun _ => rfl⟩
      · rw [if_neg hall]
        constructor
        · intro hcontra
          exact absurd hcontra (by simp)
        · rintro ⟨_, hch⟩
          exact absurd ((adjacentDiffs_all_iff _ _).mpr hch) hall
    · rw [if_neg hlen]
      constructor
      · intro hcontra
        exact absurd hcontra (by simp)
      · rintro ⟨h1c, _⟩
        exact absurd h1c hlen
  · have hlt2 : ¬ scenarioMonitor.iteration_history.length < 2 := by
      show ¬ (4 : ℕ) < 2
      norm_num
    have hge : scenarioMonitor.max_iterations_without_improvement ≤
        scenarioMonitor.coverage_history.length := by
      show (3 : ℕ) ≤ 4
      norm_num
    have hcov : sliceLast scenarioMonitor.max_iterations_without_improvement
        scenarioMonitor.coverage_history =
        [(7001 : ℚ) / 100, 7002 / 100, 7003 / 100] := rfl
    have hmin : scenarioMonitor.min_coverage_improvement = (5 : ℚ) / 100 := rfl
    have hall : ((adjacentDiffs
        (sliceLast scenarioMonitor.max_iterations_without_improvement
          scenarioMonitor.coverage_history)).all
        (fun imp => decide (imp < scenarioMonitor.min_coverage_improvement)))
        = true := by
      rw [hcov, hmin]
      simp only [adjacentDiffs, List.all_cons, List.all_nil, Bool.and_true,
        Bool.and_eq_true, decide_eq_true_eq]
      norm_num
    simp only [QualityMonitor.should_continue]
    rw [if_neg hlt2, if_pos hge, if_pos hall]
    rfl

/-- C5 witness: the scenario monitor satisfies the hypotheses and the
stagnation branch of the biconditional. -/
theorem C5_should_continue_witness :
    (scenarioMonitor.should_continue 5).1 = false :=
  ((C5_should_continue scenarioMonitor 5 (by decide)).2.1 (by decide)).mpr
    (by
      refine ⟨by decide, ?_⟩
      rw [show scenarioMonitor.coverage_history.drop
          (scenarioMonitor.coverage_history.length -
            scenarioMonitor.max_iterations_without_improvement) =
          [(7001 : ℚ) / 100, 7002 / 100, 7003 / 100] from rfl]
      rw [show scenarioMonitor.min_coverage_improvement = (5 : ℚ) / 100 from rfl]
      simp only [List.chain'_cons, List.chain'_singleton, and_true]
      norm_num)

/-- C6: starting from a fresh monitor and any submission history,
`check_output_similarity` returns 1.0 iff the identical output string was
previously submitted for that task id and 0.0 otherwise (assuming the
hash function is injective, i.e. no SHA-256 collisions); consequently
`detect_loop` at the default threshold 0.95 is false on the first
submission of an output for a task and true on an identical
resubmission. -/
theorem C6_similarity_exact (H : String → String) (hinj : Function.Injective H)
    (subs : List (String × String)) (task_id output : String) :
    (((runSubmissions H defaultMonitor subs).check_output_similarity
        H task_id output).1 = 1 ↔ (task_id, output) ∈ subs)
    ∧ (((runSubmissions H defaultMonitor subs).check_output_similarity
        H task_id output).1 = 0 ↔ (task_id, output) ∉ subs)
    ∧ ((task_id, output) ∉ subs →
        ((runSubmissions H defaultMonitor subs).detect_loop H task_id output).1
          = false)
    ∧ (((runSubmissions H defaultMonitor subs).detect_loop H task_id
        output).2.detect_loop H task_id output).1 = true := by
  set M := runSubmissions H defaultMonitor subs with hM
  have hmem : H output ∈ M.output_hashes task_id ↔ (task_id, output) ∈ subs := by
    rw [hM, runSubmissions_hashes_init]
    constructor
    · rintro ⟨o', ho', heq⟩
      rw [hinj heq] at ho'
      exact ho'
    · intro h
      exact ⟨output, h, rfl⟩
  have hfst := check_sim_fst H M task_id output
  refine ⟨?_, ?_, ?_, ?_⟩
  · rw [hfst]
    by_cases hm : H output ∈ M.output_hashes task_id
    · rw [if_pos hm]
      exact ⟨fun _ => hmem.mp hm, fun _ => rfl⟩
    · rw [if_neg hm]
      exact ⟨fun h01 => absurd h01 (by norm_num),
        fun hs => absurd (hmem.mpr hs) hm⟩
  · rw [hfst]
    by_cases hm : H output ∈ M.output_hashes task_id
    · rw [if_pos hm]
      exact ⟨fun h10 => absurd h10 (by norm_num),
        fun hs => absurd (hmem.mp hm) hs⟩
    · rw [if_neg hm]
      exact ⟨fun _ hs => absurd (hmem.mpr hs) hm, fun _ => rfl⟩
  · intro hns
    have hnm : H output ∉ M.output_hashes task_id := fun hm => hns (hmem.mp hm)
    simp only [QualityMonitor.detect_loop, decide_eq_false_iff_not]
    rw [hfst, if_neg hnm, hM, runSubmissions_threshold]
    rw [show defaultMonitor.similarity_threshold = (95 : ℚ) / 100 from rfl]
    norm_num
  · have hm2 : H output ∈
        ((M.check_output_similarity H task_id output).2.output_hashes task_id) :=
      (step_hashes H M task_id output task_id (H output)).mpr (Or.inr ⟨rfl, rfl⟩)
    simp only [QualityMonitor.detect_loop, decide_eq_true_eq]
    rw [check_sim_fst, if_pos hm2, check_sim_threshold, hM,
      runSubmissions_threshold]
    rw [show defaultMonitor.similarity_threshold = (95 : ℚ) / 100 from rfl]
    norm_num

/-- C6 witness: instantiating with the identity hash, an empty history and
a concrete task/output: the first `detect_loop` call is false, the second
identical call is true. -/
theorem C6_similarity_exact_witness :
    ((runSubmissions id defaultMonitor []).detect_loop id "t1" "abc").1 = false
    ∧ (((runSubmissions id defaultMonitor []).detect_loop id "t1"
        "abc").2.detect_loop id "t1" "abc").1 = true :=
  ⟨(C6_similarity_exact id (fun _ _ h => h) [] "t1" "abc").2.2.1 (by simp),
    (C6_similarity_exact id (fun _ _ h => h) [] "t1" "abc").2.2.2⟩

/-- C7: `find_best_agent` returns none exactly when no available worker
has any capability overlap; a returned worker is an available worker with
positive overlap whose (overlap, success-ratio) score is a lexicographic
maximum among the available workers, and it is the first such maximum in
declaration order (every earlier available worker scores strictly lower,
no later one scores strictly higher); and the selection is deterministic:
repeating the call on identical state returns the same worker. -/
theorem C7_find_best_agent (p : AgentPool) (required : List String)
    (phase : Option String) :
    (p.find_best_agent required phase = none ↔
      ∀ a ∈ p.get_available_agents, capabilityOverlap a required = 0)
    ∧ (∀ nm, p.find_best_agent required phase = some nm →
        ∃ l1 a l2, p.get_available_agents = l1 ++ a :: l2 ∧ a.name = nm ∧
          0 < capabilityOverlap a required ∧
          (∀ b ∈ l1, scoreLt required b a) ∧
          (∀ b ∈ l2, ¬ scoreLt required a b))
    ∧ p.find_best_agent required phase = p.find_best_agent required phase := by
  refine ⟨?_, ?_, rfl⟩
  · cases hb : bestAgent required p.get_available_agents with
    | none =>
        rw [find_best_agent_on_none p required phase hb]
        have hl : p.get_available_agents = [] :=
          (bestAgent_eq_none required _).mp hb
        simp [hl]
    | some a =>
        rw [find_best_agent_on_some p required phase a hb]
        rcases bestAgent_split required _ a hb with ⟨l1, l2, hsplit, h1, h2⟩
        by_cases h0 : capabilityOverlap a required = 0
        · rw [if_pos (by simpa using h0)]
          simp only [true_iff]
          intro c hc
          rw [hsplit] at hc
          rcases List.mem_append.mp hc with hc1 | hc2
          · rcases h1 c hc1 with hlt | ⟨heq, _⟩
            · omega
            · omega
          · rcases List.mem_cons.mp hc2 with rfl | hc2
            · exact h0
            · have := (not_scoreLt_iff required a c).mp (h2 c hc2)
              rcases this with hlt | ⟨heq, _⟩
              · omega
              · omega
        · rw [if_neg (by simpa using h0)]
          constructor
          · intro hcontra
            exact absurd hcontra (by simp)
          · intro hall
            have ha : a ∈ p.get_available_agents := by
              rw [hsplit]
              exact List.mem_append_right l1 (List.mem_cons_self a l2)
            exact absurd (hall a ha) h0
  · intro nm hfind
    cases hb : bestAgent required p.get_available_agents with
    | none => rw [find_best_agent_on_none p required phase hb] at hfind; cases hfind
    | some a =>
        rw [find_best_agent_on_some p required phase a hb] at hfind
        by_cases h0 : capabilityOverlap a required = 0
        · rw [if_pos (by simpa using h0)] at hfind
          cases hfind
        · rw [if_neg (by simpa using h0)] at hfind
          injection hfind with hfind
          rcases bestAgent_split required _ a hb with ⟨l1, l2, hsplit, h1, h2⟩
          exact ⟨l1, a, l2, hsplit, hfind, Nat.pos_of_ne_zero h0, h1, h2⟩

/-- C7 witness: on the roster of the repository's `test_find_best_agent`
(python-expert with ["python","testing"], docs-writer with
["documentation"]) and requirement ["python"], the returned worker
"python-expert" is a first lexicographic maximum among the available
workers. -/
theorem C7_find_best_agent_witness :
    ∃ l1 a l2, demoPool.get_available_agents = l1 ++ a :: l2 ∧
      a.name = "python-expert" ∧ 0 < capabilityOverlap a ["python"] ∧
      (∀ b ∈ l1, scoreLt ["python"] b a) ∧
      (∀ b ∈ l2, ¬ scoreLt ["python"] a b) :=
  (C7_find_best_agent demoPool ["python"] (some "implementation")).2.1
    "python-expert" (by decide)

/-- C10: with at least 2 iteration records but a coverage history shorter
than `max_iterations_without_improvement` (e.g. iterations recorded with
coverage omitted), `should_continue` returns (true, "quality_improving")
regardless of the recorded coverage values. -/
theorem C10_short_coverage_history (m : QualityMonitor) (iteration : Nat)
    (h2 : 2 ≤ m.iteration_history.length)
    (h3 : m.coverage_history.length < m.max_iterations_without_improvement) :
    m.should_continue iteration = (true, "quality_improving") := by
  simp only [QualityMonitor.should_continue]
  rw [if_neg (not_lt.mpr h2), if_neg (not_le.mpr h3)]

/-- C10 witness: a monitor with two records and no coverage samples. -/
theorem C10_short_coverage_history_witness :
    noCoverageMonitor.should_continue 3 = (true, "quality_improving") :=
  C10_short_coverage_history noCoverageMonitor 3 (by decide) (by decide)

/-- C3: the executor never has more than `max_parallel` executions in
flight: every batch it selects (`ready_tasks[:max_parallel]`) has size at
most `max_parallel`, and the counting semaphore of
`execute_tasks_parallel` — created with `max_concurrent`, for which
`execute_project` passes `max_parallel` — keeps the number of concurrent
holders at or below `max_concurrent` in every reachable state. -/
theorem C3_bounded_concurrency :
    (∀ (ready_tasks : List Task) (max_parallel : Nat),
        (tasks_to_execute ready_tasks max_parallel).length ≤ max_parallel)
    ∧ (∀ (max_concurrent n : Nat),
        SemReachable max_concurrent n → n ≤ max_concurrent) := by
  constructor
  · intro ready mp
    simp only [tasks_to_execute, List.length_take]
    omega
  · intro c n h
    induction h with
    | init => omega
    | acquire n h hlt ih => omega
    | release n h hpos ih => omega

/-- C3 witness: a three-task ready list cut to a batch of at most 2, and
the semaphore state after one acquire at capacity 2. -/
theorem C3_bounded_concurrency_witness :
    (tasks_to_execute [demoTask, demoTask, demoTask] 2).length ≤ 2
    ∧ (1 : Nat) ≤ 2 :=
  ⟨C3_bounded_concurrency.1 [demoTask, demoTask, demoTask] 2,
    C3_bounded_concurrency.2 2 1
      (SemReachable.acquire 0 SemReachable.init (by decide))⟩

/-- C4: on any queue state with no ready task, no InProgress task, and the
queue not complete (for example every task depending on a nonexistent id),
`execute_project` — a total function in this model, so the condition never
raises — stops after at most one loop pass, for any batch semantics and
any budget, and reports status "incomplete". -/
theorem C4_deadlock_terminates
    (runBatch : TaskQueue → List Task → TaskQueue)
    (max_parallel max_iterations : Nat) (objective : String) (q0 : TaskQueue)
    (hready : q0.get_ready_tasks = [])
    (hprog : q0.in_progress_count = 0)
    (hincomp : q0.is_complete = false) :
    (execute_project runBatch max_parallel max_iterations objective q0).status
        = "incomplete"
    ∧ (execute_project runBatch max_parallel max_iterations objective
        q0).iterations ≤ 1 := by
  cases max_iterations with
  | zero => simp [execute_project, execute_loop, hincomp]
  | succ fuel => simp [execute_project, execute_loop, hready, hprog, hincomp]

/-- C4 witness: Scenario E's queue (a task depending on a missing id) with
budget 10 stops with status "incomplete" after one pass. -/
theorem C4_deadlock_terminates_witness :
    (execute_project (fun q _ => q) 3 10 "obj" blockedQueue).status
        = "incomplete"
    ∧ (execute_project (fun q _ => q) 3 10 "obj" blockedQueue).iterations ≤ 1 :=
  C4_deadlock_terminates (fun q _ => q) 3 10 "obj" blockedQueue
    (by decide) (by decide) (by decide)

/-- C8 counterexample: the claim "each dispatched task has a worker chosen
from the pool and registered through the pool's assignment operation" is
false: in a concrete dispatch with a one-worker roster ("w1"), the trace
contains no `pool_assign_task` event at all (the source hard-codes
`agent_name = "supervisor"` and never calls `assign_task_to_agent`). -/
theorem C8_claim_counterexample :
    ¬ ∀ (supervisor : String → Except String String) (q : TaskQueue)
        (pool : AgentPool) (task : Task) (d : ℚ) (r : TaskResult)
        (q2 : TaskQueue) (pool2 : AgentPool) (evs : List ExecEvent),
        execute_with_semaphore supervisor q pool task d =
            some (r, q2, pool2, evs) →
          ∃ w, w ∈ pool.agents.map AgentInstance.name ∧
            ExecEvent.pool_assign_task task.task_id w ∈ evs := by
  intro hcl
  rcases hcl (fun _ => Except.ok "out") demoQueue demoRoster demoTask 0
      demoOutcome.1 demoOutcome.2.1 demoOutcome.2.2.1 demoOutcome.2.2.2
      (by rfl)
    with ⟨w, _, hw⟩
  simp [demoOutcome, demoTask] at hw

/-- C8 (amended): the dispatch path marks each batch task in progress with
the fixed worker name "supervisor" before executing it, emits no
`pool_assign_task` event (the AgentPool's assignment operation is never
invoked), and touches the pool only through one `mark_task_complete` call
when the execution finishes. -/
theorem C8_dispatch_supervisor (supervisor : String → Except String String)
    (q : TaskQueue) (pool : AgentPool) (task : Task) (d : ℚ)
    (r : TaskResult) (q2 : TaskQueue) (pool2 : AgentPool)
    (evs : List ExecEvent)
    (h : execute_with_semaphore supervisor q pool task d =
        some (r, q2, pool2, evs)) :
    (q2.get_task task.task_id).map Task.assigned_agent =
        some (some "supervisor")
    ∧ evs = [ExecEvent.record_agent_performance "supervisor" task.task_id
          r.success,
        ExecEvent.pool_mark_task_complete "supervisor" r.success]
    ∧ pool2 = pool.mark_task_complete "supervisor" r.success
    ∧ (∀ tid w, ExecEvent.pool_assign_task tid w ∉ evs) := by
  cases hout : supervisor task.description with
  | ok s =>
      simp [execute_with_semaphore, execute_task_async, hout] at h
      split at h
      · cases h
      · rename_i q1 h1
        split at h
        · cases h
        · rename_i q2w h2
          injection h with h
          simp only [Prod.mk.injEq] at h
          rcases h with ⟨hr, hq2, hpool, hevs⟩
          subst hr
          subst hq2
          subst hpool
          subst hevs
          rcases mark_in_progress_spec q task.task_id "supervisor" q1 h1 with
            ⟨t, _, _, ht1⟩
          rcases mark_complete_spec q1 task.task_id (some s) q2w h2 with
            ⟨t2, ht2a, ht2b⟩
          rw [ht1] at ht2a
          injection ht2a with ht2a
          subst ht2a
          refine ⟨by rw [ht2b]; rfl, rfl, rfl, ?_⟩
          intro tid w hw
          simp at hw
  | error e =>
      simp [execute_with_semaphore, execute_task_async, hout] at h
      split at h
      · cases h
      · rename_i q1 h1
        split at h
        · cases h
        · rename_i q2w h2
          injection h with h
          simp only [Prod.mk.injEq] at h
          rcases h with ⟨hr, hq2, hpool, hevs⟩
          subst hr
          subst hq2
          subst hpool
          subst hevs
          rcases mark_in_progress_spec q task.task_id "supervisor" q1 h1 with
            ⟨t, _, _, ht1⟩
          rcases mark_failed_spec q1 task.task_id _ q2w h2 with
            ⟨t2, ht2a, ht2b⟩
          rw [ht1] at ht2a
          injection ht2a with ht2a
          subst ht2a
          refine ⟨by rw [ht2b]; rfl, rfl, rfl, ?_⟩
          intro tid w hw
          simp at hw

/-- C8 witness: instantiating the amended dispatch theorem on the concrete
one-worker run: the task ends up assigned to "supervisor". -/
theorem C8_dispatch_supervisor_witness :
    (demoOutcome.2.1.get_task "t1").map Task.assigned_agent =
      some (some "supervisor") :=
  (C8_dispatch_supervisor (fun _ => Except.ok "out") demoQueue demoRoster
      demoTask 0 demoOutcome.1 demoOutcome.2.1 demoOutcome.2.2.1
      demoOutcome.2.2.2 (by rfl)).1

/-- C9: `execute_task_async` is total over the capability's outcome: a
raised exception yields `{success := false, error := str(e), duration}`
(never a propagated exception), success yields
`{success := true, result, duration}`, and on either branch the pool's
`mark_task_complete` is called for the dispatching worker exactly once. -/
theorem C9_execute_task_async_total
    (supervisor : String → Except String String) (pool : AgentPool)
    (task_id description agent_name : String) (d : ℚ) :
    (∀ e, supervisor description = Except.error e →
        execute_task_async supervisor pool task_id description agent_name d =
          (⟨false, none, some e, d⟩,
            pool.mark_task_complete agent_name false,
            [ExecEvent.record_agent_performance agent_name task_id false,
              ExecEvent.pool_mark_task_complete agent_name false]))
    ∧ (∀ s, supervisor description = Except.ok s →
        execute_task_async supervisor pool task_id description agent_name d =
          (⟨true, some s, none, d⟩,
            pool.mark_task_complete agent_name true,
            [ExecEvent.record_agent_performance agent_name task_id true,
              ExecEvent.pool_mark_task_complete agent_name true]))
    ∧ ((execute_task_async supervisor pool task_id description agent_name
          d).2.2.countP
        (fun ev => match ev with
          | ExecEvent.pool_mark_task_complete a _ => a == agent_name
          | _ => false) = 1) := by
  refine ⟨?_, ?_, ?_⟩
  · intro e he
    simp [execute_task_async, he]
  · intro s hs
    simp [execute_task_async, hs]
  · cases hout : supervisor description <;>
      simp [execute_task_async, hout, List.countP_cons]

/-- C9 witness: the failing-supervisor scenario of the repository's
`test_execute_task_async_failure` (error "Test error", empty pool). -/
theorem C9_execute_task_async_total_witness :
    execute_task_async (fun _ => Except.error "Test error") ⟨[]⟩ "task1"
        "test task" "supervisor" 0 =
      (⟨false, none, some "Test error", 0⟩, AgentPool.mk [],
        [ExecEvent.record_agent_performance "supervisor" "task1" false,
          ExecEvent.pool_mark_task_complete "supervisor" false]) :=
  (C9_execute_task_async_total (fun _ => Except.error "Test error") ⟨[]⟩
      "task1" "test task" "supervisor" 0).1 "Test error" rfl

/-- C2 witness: instantiating the transition theorem on a concrete queue
holding one Pending task and the `mark_in_progress` operation. -/
theorem C2_transitions_witness :
    legalTransition TaskStatus.pending TaskStatus.inProgress :=
  (C2_transitions ⟨[⟨"t1", "d", [], TaskStatus.pending, none, none, none⟩]⟩).1
    (QueueOp.inProgress "t1" "agent1")
    ⟨[⟨"t1", "d", [], TaskStatus.inProgress, some "agent1", none, none⟩]⟩
    "t1"
    ⟨"t1", "d", [], TaskStatus.pending, none, none, none⟩
    ⟨"t1", "d", [], TaskStatus.inProgress, some "agent1", none, none⟩
    (by decide) (by decide) (by decide)

end Tessera
